import Mathlib

/-!
Shallow embedding of `main.py` of the monitoramento_noticias_paraiba
pipeline: a news-collection script that queries Google News RSS for each
configured keyword, filters entries for mentions of Paraíba, enriches them
(summary, category, cities, names, relevance) and merges them into a CSV
store deduplicated by the `title_published` key.

External capabilities (the HTTP article fetch, the sumy LexRank summarizer,
the clock) are modelled as oracle parameters bundled in `Env`.  Python
string primitives (`str.lower`, `str.split`, `str.strip`, `in`,
`str.istitle`) are modelled for the ASCII and Latin-1 range, which covers
every literal occurring in the script.
-/

/-- Whitespace as recognised by Python `str.split()` with no argument. -/
def pyIsSpace (c : Char) : Bool :=
  c == ' ' || c == '\t' || c == '\n' || c == '\r' || c == '\x0b' || c == '\x0c'

/-- Uppercase-letter test as in Python, restricted to ASCII and Latin-1
(`À`..`Þ` without the multiplication sign). -/
def pyIsUpper (c : Char) : Bool :=
  c.isUpper || (decide (0xC0 ≤ c.toNat) && decide (c.toNat ≤ 0xDE) && decide (c.toNat ≠ 0xD7))

/-- Lowercase-letter test as in Python, restricted to ASCII and Latin-1
(`ß`..`ÿ` without the division sign). -/
def pyIsLower (c : Char) : Bool :=
  c.isLower || (decide (0xDF ≤ c.toNat) && decide (c.toNat ≤ 0xFF) && decide (c.toNat ≠ 0xF7))

/-- Python `str.lower` on one character: ASCII and Latin-1 uppercase letters
map 32 codepoints up, everything else is unchanged. -/
def pyLowerChar (c : Char) : Char :=
  if pyIsUpper c then Char.ofNat (c.toNat + 32) else c

/-- Python `str.lower` (ASCII and Latin-1). -/
def pyLower (s : String) : String := ⟨s.data.map pyLowerChar⟩

/-- Python `needle in hay` on character lists. -/
def listContainsSub (needle : List Char) : List Char → Bool
  | [] => needle.isEmpty
  | c :: rest => needle.isPrefixOf (c :: rest) || listContainsSub needle rest

/-- Python substring test `needle in hay` for strings. -/
def containsSub (hay needle : String) : Bool := listContainsSub needle.data hay.data

/-- Python `str.strip()`: drop whitespace from both ends. -/
def pyStrip (s : String) : String :=
  ⟨((s.data.dropWhile pyIsSpace).reverse.dropWhile pyIsSpace).reverse⟩

/-- Accumulator pass of Python `str.split()` (split on whitespace runs,
dropping empty tokens); `cur` holds the characters of the current token in
reverse. -/
def splitWsAux : List Char → List Char → List (List Char)
  | [], cur => if cur.isEmpty then [] else [cur.reverse]
  | c :: cs, cur =>
    if pyIsSpace c then
      if cur.isEmpty then splitWsAux cs [] else cur.reverse :: splitWsAux cs []
    else splitWsAux cs (c :: cur)

/-- Python `str.split()` with no argument. -/
def pySplitWs (s : String) : List String := (splitWsAux s.data []).map (fun l => ⟨l⟩)

/-- Accumulator pass of Python `str.split(sep)` (keeps empty fragments). -/
def splitOnAux (sep : Char) : List Char → List Char → List (List Char)
  | [], cur => [cur.reverse]
  | c :: cs, cur =>
    if c == sep then cur.reverse :: splitOnAux sep cs []
    else splitOnAux sep cs (c :: cur)

/-- Python `str.split(sep)` for a one-character separator. -/
def pySplitOn (s : String) (sep : Char) : List String :=
  (splitOnAux sep s.data []).map (fun l => ⟨l⟩)

/-- Python `" ".join` at the character-list level. -/
def joinSpaceL : List (List Char) → List Char
  | [] => []
  | [t] => t
  | t :: ts => t ++ ' ' :: joinSpaceL ts

/-- Python `" ".join`. -/
def joinSpace (ts : List String) : String := ⟨joinSpaceL (ts.map String.data)⟩

/-- Python `";".join`. -/
def joinSemi : List String → String
  | [] => ""
  | [t] => t
  | t :: ts => t ++ ";" ++ joinSemi ts

/-- Worker of `list(dict.fromkeys(l))`: drop duplicates, keeping the first
occurrence of each element; `seen` collects the keys already emitted. -/
def dedupFirstAux (seen : List String) : List String → List String
  | [] => []
  | x :: xs => if x ∈ seen then dedupFirstAux seen xs else x :: dedupFirstAux (x :: seen) xs

/-- Python `list(dict.fromkeys(l))`. -/
def dictFromKeys (l : List String) : List String := dedupFirstAux [] l

/-- Scanner of CPython `str.istitle`: walks the characters tracking whether
the previous character was cased and whether any cased character was seen.
An uppercase letter may only follow an uncased character, a lowercase letter
may only follow a cased one. -/
def istitleAux : List Char → Bool → Bool → Bool
  | [], _, cased => cased
  | c :: cs, prevCased, cased =>
    if pyIsUpper c then
      if prevCased then false else istitleAux cs true true
    else if pyIsLower c then
      if prevCased then istitleAux cs true true else false
    else istitleAux cs false cased

/-- Python `str.istitle` (ASCII and Latin-1 letters). -/
def pyIstitle (s : String) : Bool := istitleAux s.data false false

/-- `simple_summarize` from `main.py`.  The sumy LexRank pipeline is the
oracle `lexrank`, returning `none` when it raises; its `some` result is the
already-joined sentence string. -/
def simple_summarize (lexrank : String → Nat → Option String)
    (text : String) (sentences_count : Nat) : String :=
  if text = "" ∨ (pySplitWs text).length < 30 then pyStrip text
  else
    match lexrank text sentences_count with
    | some s => s
    | none => pyStrip (joinSpace ((pySplitOn text '.').take sentences_count))

/-- `classify_by_keywords` from `main.py`.  The `keywords` argument is
accepted but never consulted; only the hard-coded trigger buckets decide. -/
def classify_by_keywords (text : String) (keywords : List String) : String :=
  let txt := pyLower text
  if ["homicid", "morte", "assassin"].any (fun k => containsSub txt k) then "Homicídio"
  else if ["tráfico", "trafic", "droga"].any (fun k => containsSub txt k) then "Tráfico"
  else if ["operação policial", "operação", "polícia", "policial"].any (fun k => containsSub txt k) then
    "Operação Policial"
  else if ["roubo", "assalto"].any (fun k => containsSub txt k) then "Roubo"
  else "Outro"

/-- The classifier's trigger buckets as the ordered rule table the spec
describes: label paired with its trigger substrings, highest priority
first. -/
def ruleTable : List (String × List String) :=
  [("Homicídio", ["homicid", "morte", "assassin"]),
   ("Tráfico", ["tráfico", "trafic", "droga"]),
   ("Operação Policial", ["operação policial", "operação", "polícia", "policial"]),
   ("Roubo", ["roubo", "assalto"])]

/-- Modelled from the spec: first-match-wins evaluation of an ordered
(label, triggers) table on an already-lowercased text, defaulting to
"Outro". -/
def firstMatch (txt : String) : List (String × List String) → String
  | [] => "Outro"
  | (label, triggers) :: rest =>
    if triggers.any (fun k => containsSub txt k) then label else firstMatch txt rest

/-- `extract_cities` from `main.py`: configured cities whose lowercase form
occurs in the lowered text, first occurrences only. -/
def extract_cities (text : String) (cities : List String) : List String :=
  let t := pyLower text
  dictFromKeys (cities.filter (fun c => containsSub t (pyLower c)))

/-- The scanning loop of `extract_names_heuristic`.  `fuel` bounds the
number of iterations; every call consumes at least one word, so the word
count is enough fuel.  A run starts at a title-cased word longer than two
characters, extends over immediately following title-cased words (no length
requirement there), and is emitted when it has at least two words. -/
def namesLoopF : Nat → List String → List String
  | 0, _ => []
  | _ + 1, [] => []
  | fuel + 1, w :: ws =>
    if pyIstitle w && decide (2 < w.length) then
      let ext := ws.takeWhile (fun x => pyIstitle x)
      if decide (2 ≤ (w :: ext).length) then
        joinSpace (w :: ext) :: namesLoopF fuel (ws.drop ext.length)
      else namesLoopF fuel ws
    else namesLoopF fuel ws

/-- `extract_names_heuristic` from `main.py`.  Python collects the names in
a `set` whose iteration order is unspecified; the model keeps
first-occurrence order, on which no property below depends. -/
def extract_names_heuristic (text : String) : List String :=
  let words := pySplitWs text
  dictFromKeys (namesLoopF words.length words)

/-- The relevance sum computed in `main`: one unit per configured keyword
whose lowercase form occurs in the lowered title-plus-text. -/
def relevance (lower : String) (keywords : List String) : Nat :=
  (keywords.map (fun k => if containsSub lower (pyLower k) then 1 else 0)).sum

/-- The parsed `keywords.json` document; a field is `none` when the key is
absent from the JSON object. -/
structure Config where
  keywords : Option (List String)
  cities : Option (List String)
deriving DecidableEq

/-- `load_keywords` from `main.py`: opening a missing file raises, which the
model reports as an error; the filesystem is `Option Config`. -/
def load_keywords : Option Config → Except String Config
  | none => Except.error "FileNotFoundError"
  | some cfg => Except.ok cfg

/-- The configuration read at the top of `main`: `cfg.get("keywords", [])`
and `cfg.get("cities", [])`. -/
def mainConfig (file : Option Config) : Except String (List String × List String) :=
  match load_keywords file with
  | Except.error e => Except.error e
  | Except.ok cfg => Except.ok (cfg.keywords.getD [], cfg.cities.getD [])

/-- One RSS feed entry.  The `summary` field stands for
`e.get("summary","") or e.get("description","")`. -/
structure FeedEntry where
  title : String
  link : String
  published : String
  summary : String
deriving DecidableEq

/-- One row of the persisted CSV store. -/
structure Row where
  title : String
  link : String
  published : String
  fetched_at : String
  summary : String
  category : String
  cities : String
  names : String
  relevance : Nat
  raw_text_snippet : String
deriving DecidableEq

/-- External capabilities of one run. -/
structure Env where
  /-- `extract_text_from_link`: page text, `""` on any failure. -/
  fetchText : String → String
  /-- The sumy LexRank capability used inside `simple_summarize`. -/
  lexrank : String → Nat → Option String
  /-- `datetime.utcnow().isoformat()`. -/
  now : String

/-- The dedup identity key of an entry: `f"{title}_{published}"`. -/
def keyOf (e : FeedEntry) : String := e.title ++ "_" ++ e.published

/-- The dedup identity key recomputed from a stored row. -/
def keyRow (r : Row) : String := r.title ++ "_" ++ r.published

/-- The article text used for an entry: the fetched page text, or the feed
summary when the fetch yields the empty string. -/
def resolvedText (fetchText : String → String) (e : FeedEntry) : String :=
  let article := fetchText e.link
  if article = "" then e.summary else article

/-- The Paraíba region filter of `main`: the lowered title-plus-text must
contain "paraíba" or "paraiba". -/
def regionOk (env : Env) (e : FeedEntry) : Bool :=
  let article := resolvedText env.fetchText e
  let lower := pyLower (e.title ++ " " ++ article)
  containsSub lower "paraíba" || containsSub lower "paraiba"

/-- The row `main` assembles for an accepted entry. -/
def mkRow (env : Env) (keywords cities : List String) (e : FeedEntry) : Row :=
  let article := resolvedText env.fetchText e
  let lower := pyLower (e.title ++ " " ++ article)
  { title := e.title
    link := e.link
    published := e.published
    fetched_at := env.now
    summary := simple_summarize env.lexrank article 3
    category := classify_by_keywords (e.title ++ " " ++ article) keywords
    cities := joinSemi (extract_cities (e.title ++ " " ++ article) cities)
    names := joinSemi (extract_names_heuristic article)
    relevance := relevance lower keywords
    raw_text_snippet := pyStrip ⟨(article.data.take 800).map (fun c => if c == '\n' then ' ' else c)⟩ }

/-- The per-entry loop of `main`, over the flattened entry stream (the
entries of every keyword query in order, each query already truncated to
`SEARCH_TOP`); `seen` is the `seen_keys` set as a list.  An entry whose key
was already seen is skipped before any fetch; an entry failing the region
filter is dropped without recording its key. -/
def processEntries (env : Env) (keywords cities : List String) :
    List FeedEntry → List String → List Row
  | [], _ => []
  | e :: es, seen =>
    if keyOf e ∈ seen then processEntries env keywords cities es seen
    else if regionOk env e then
      mkRow env keywords cities e :: processEntries env keywords cities es (keyOf e :: seen)
    else processEntries env keywords cities es seen

/-- Outcome of one run. -/
structure RunResult where
  /-- `df_final`: the table handed to `save_csv` when non-empty. -/
  final : List Row
  /-- Whether `save_csv` runs. -/
  wrote : Bool
deriving DecidableEq

/-- `main` after configuration loading: seed `seen_keys` from the existing
table, run the entry loop, concatenate, and write only when the combined
table is non-empty. -/
def runMain (env : Env) (keywords cities : List String)
    (existing : List Row) (entries : List FeedEntry) : RunResult :=
  let seen := existing.map keyRow
  let rows := processEntries env keywords cities entries seen
  let dfFinal := if existing.isEmpty then rows else existing ++ rows
  { final := dfFinal, wrote := !dfFinal.isEmpty }

/-- Shape required of an emitted candidate name: at least two whitespace
tokens, the first title-cased and longer than two characters, every further
token title-cased. -/
def nameShape (nm : String) : Bool :=
  match pySplitWs nm with
  | w :: x :: rest => pyIstitle w && decide (2 < w.length) && (x :: rest).all (fun t => pyIstitle t)
  | _ => false

/-- A word as produced by `str.split()`: non-empty and whitespace-free. -/
def goodTok (t : String) : Bool :=
  !t.data.isEmpty && t.data.all (fun c => !pyIsSpace c)

/-- Sample entry rejected by the region filter under `envDup`. -/
def entryA : FeedEntry :=
  { title := "Crime registrado", link := "L1", published := "2025-01-01", summary := "" }

/-- Sample entry with the same identity key as `entryA` but another link. -/
def entryB : FeedEntry :=
  { title := "Crime registrado", link := "L2", published := "2025-01-01", summary := "" }

/-- Fetch oracle of the duplicate-key scenario: the article behind `L2`
mentions Paraíba, the one behind `L1` does not. -/
def envDup : Env :=
  { fetchText := fun l => if l == "L2" then "ocorreu na paraíba" else "ocorreu no sertão"
    lexrank := fun _ _ => none
    now := "2025-01-02T00:00:00" }

/-- A row already persisted by an earlier run. -/
def rowStored : Row :=
  { title := "Velho caso", link := "L0", published := "2024-01-01"
    fetched_at := "2024-01-02T00:00:00", summary := "", category := "Outro"
    cities := "", names := "", relevance := 0, raw_text_snippet := "" }

/-- Oracle under which every article fetch fails. -/
def envQuiet : Env :=
  { fetchText := fun _ => "", lexrank := fun _ _ => none, now := "2025-01-02T00:00:00" }

theorem relevance_eq_countP (lower : String) (keywords : List String) :
    relevance lower keywords = keywords.countP (fun k => containsSub lower (pyLower k)) := by
  induction keywords with
  | nil => rfl
  | cons k ks ih =>
    simp only [relevance, List.map_cons, List.sum_cons, List.countP_cons] at *
    rw [ih, Nat.add_comm]

theorem mem_dedupFirstAux : ∀ {l seen : List String} {x : String},
    x ∈ dedupFirstAux seen l ↔ x ∈ l ∧ x ∉ seen := by
  intro l
  induction l with
  | nil => intro seen x; simp [dedupFirstAux]
  | cons y ys ih =>
    intro seen x
    by_cases hy : y ∈ seen <;> by_cases hxy : x = y <;>
      simp [dedupFirstAux, hy, hxy, ih, List.mem_cons] <;> tauto

theorem nodup_dedupFirstAux : ∀ {l seen : List String}, (dedupFirstAux seen l).Nodup := by
  intro l
  induction l with
  | nil => intro seen; simp [dedupFirstAux]
  | cons y ys ih =>
    intro seen
    simp only [dedupFirstAux]
    by_cases hy : y ∈ seen
    · rw [if_pos hy]; exact ih
    · rw [if_neg hy]
      refine List.nodup_cons.mpr ⟨?_, ih⟩
      intro hmem
      exact (mem_dedupFirstAux.mp hmem).2 (List.mem_cons_self ..)

theorem sublist_dedupFirstAux : ∀ {l seen : List String}, List.Sublist (dedupFirstAux seen l) l := by
  intro l
  induction l with
  | nil => intro seen; simp [dedupFirstAux]
  | cons y ys ih =>
    intro seen
    simp only [dedupFirstAux]
    by_cases hy : y ∈ seen
    · rw [if_pos hy]; exact List.Sublist.cons _ ih
    · rw [if_neg hy]; exact List.Sublist.cons₂ _ ih

theorem classify_eq_firstMatch (text : String) (keywords : List String) :
    classify_by_keywords text keywords = firstMatch (pyLower text) ruleTable := rfl

theorem firstMatch_mem (txt : String) :
    ∀ rules : List (String × List String),
      firstMatch txt rules ∈ rules.map Prod.fst ++ ["Outro"] := by
  intro rules
  induction rules with
  | nil => simp [firstMatch]
  | cons rule rest ih =>
    obtain ⟨label, triggers⟩ := rule
    simp only [firstMatch, List.map_cons, List.cons_append]
    split
    · exact List.mem_cons_self ..
    · exact List.mem_cons_of_mem _ ih

/-- C3 counterexample: with one previously stored row and no feed entries the
run produces zero new rows, yet `save_csv` runs (and rewrites the old row),
contradicting "a run that accepts zero new entries performs no write". -/
theorem commit_writes_without_new_rows :
    (runMain envQuiet [] [] [rowStored] []).wrote = true
    ∧ processEntries envQuiet [] [] [] ([rowStored].map keyRow) = []
    ∧ (runMain envQuiet [] [] [rowStored] []).final = [rowStored] := by decide

/-- C3 (amended): the store is written back exactly when the combined table
(existing rows followed by the rows accepted this run) is non-empty; with
zero new rows the store is still rewritten whenever previously persisted
rows exist. -/
theorem commit_iff_final_nonempty (env : Env) (keywords cities : List String)
    (existing : List Row) (entries : List FeedEntry) :
    (runMain env keywords cities existing entries).wrote
      = (!existing.isEmpty
          || !(processEntries env keywords cities entries (existing.map keyRow)).isEmpty) := by
  cases existing with
  | nil => simp [runMain]
  | cons r rs => simp [runMain]

/-- C4: the classifier always returns one of the five fixed labels, never the
empty string, and equals first-match-wins evaluation of the ordered bucket
table (homicide, trafficking, police operation, theft, else "Outro"); a text
with both a homicide trigger and a theft trigger gets the homicide label. -/
theorem classifier_total_first_match (text : String) (keywords : List String) :
    classify_by_keywords text keywords
        ∈ ["Homicídio", "Tráfico", "Operação Policial", "Roubo", "Outro"]
    ∧ (classify_by_keywords text keywords).isEmpty = false
    ∧ classify_by_keywords text keywords = firstMatch (pyLower text) ruleTable
    ∧ classify_by_keywords "morte e roubo" [] = "Homicídio" := by
  have hmem : classify_by_keywords text keywords
      ∈ ["Homicídio", "Tráfico", "Operação Policial", "Roubo", "Outro"] := by
    rw [classify_eq_firstMatch]
    simpa [ruleTable] using firstMatch_mem (pyLower text) ruleTable
  have hne : ∀ s ∈ ["Homicídio", "Tráfico", "Operação Policial", "Roubo", "Outro"],
      String.isEmpty s = false := by decide
  exact ⟨hmem, hne _ hmem, classify_eq_firstMatch text keywords, by decide⟩

/-- C5: for empty text or fewer than 30 whitespace tokens, `simple_summarize`
is a no-op up to stripping, for every behaviour of the LexRank capability. -/
theorem summarize_short_noop (lexrank : String → Nat → Option String)
    (text : String) (sentences_count : Nat)
    (h : text = "" ∨ (pySplitWs text).length < 30) :
    simple_summarize lexrank text sentences_count = pyStrip text := by
  unfold simple_summarize
  rw [if_pos h]

theorem summarize_short_noop_witness :
    ("texto muito curto" = "" ∨ (pySplitWs "texto muito curto").length < 30)
    ∧ simple_summarize (fun _ _ => none) "texto muito curto" 3 = pyStrip "texto muito curto" :=
  ⟨by decide, summarize_short_noop (fun _ _ => none) "texto muito curto" 3 (by decide)⟩

/-- C6: the relevance field of an assembled row counts the configured
keywords whose lowercase form occurs in the lowered title-plus-text, each at
most once (the count never exceeds the number of configured keywords), and
the spec's scenario scores 2. -/
theorem relevance_counts_keywords (env : Env) (keywords cities : List String) (e : FeedEntry) :
    (mkRow env keywords cities e).relevance
      = keywords.countP
          (fun k => containsSub (pyLower (e.title ++ " " ++ resolvedText env.fetchText e)) (pyLower k))
    ∧ (mkRow env keywords cities e).relevance ≤ keywords.length
    ∧ relevance (pyLower "Homicídio registrado; suspeita de tráfico") ["homicídio", "tráfico"] = 2 := by
  have h1 : (mkRow env keywords cities e).relevance
      = relevance (pyLower (e.title ++ " " ++ resolvedText env.fetchText e)) keywords := rfl
  refine ⟨?_, ?_, by decide⟩
  · rw [h1, relevance_eq_countP]
  · rw [h1, relevance_eq_countP]
    exact List.countP_le_length _

/-- C7: `extract_cities` returns a duplicate-free sublist of the configured
city list (hence in configuration order, each city at most once), exactly
those cities found in the lowered text, and the spec's two-city scenario
comes out in configuration order. -/
theorem extract_cities_order_unique (text : String) (cities : List String) :
    (extract_cities text cities).Sublist cities
    ∧ (extract_cities text cities).Nodup
    ∧ (extract_cities text cities).all (fun c => containsSub (pyLower text) (pyLower c)) = true
    ∧ cities.all (fun c => !containsSub (pyLower text) (pyLower c)
        || decide (c ∈ extract_cities text cities)) = true
    ∧ extract_cities "Assalto em João Pessoa e tiroteio em Campina Grande; João Pessoa reage"
        ["João Pessoa", "Campina Grande"] = ["João Pessoa", "Campina Grande"] := by
  refine ⟨?_, nodup_dedupFirstAux, ?_, ?_, by decide⟩
  · exact sublist_dedupFirstAux.trans (List.filter_sublist _)
  · rw [List.all_eq_true]
    intro c hc
    exact (List.mem_filter.mp (mem_dedupFirstAux.mp hc).1).2
  · rw [List.all_eq_true]
    intro c hc
    by_cases h : containsSub (pyLower text) (pyLower c) = true
    · have hm : c ∈ extract_cities text cities :=
        mem_dedupFirstAux.mpr ⟨List.mem_filter.mpr ⟨hc, h⟩, by simp⟩
      simp [hm]
    · rw [Bool.not_eq_true] at h
      simp [h]

/-- C8 counterexample: a configuration document lacking the `keywords` field
is not fatal — `main` proceeds with the empty-list default from
`cfg.get("keywords", [])`. -/
theorem config_missing_field_not_fatal :
    mainConfig (some { keywords := none, cities := some ["João Pessoa"] })
      = Except.ok ([], ["João Pessoa"]) := rfl

/-- C8 (amended): a missing configuration file is fatal (the run aborts
before any fetching), but a document missing `keywords` or `cities` is not:
each absent field is silently replaced by the empty list. -/
theorem config_missing_field_defaults (cfg : Config) :
    load_keywords none = Except.error "FileNotFoundError"
    ∧ mainConfig (some cfg) = Except.ok (cfg.keywords.getD [], cfg.cities.getD []) :=
  ⟨rfl, rfl⟩

/-- C10: the classifier's result does not depend on the configured keyword
list — the parameter is accepted but never consulted. -/
theorem classifier_ignores_keywords (text : String) (k1 k2 : List String) :
    classify_by_keywords text k1 = classify_by_keywords text k2 := rfl

theorem keyRow_mkRow (env : Env) (keywords cities : List String) (e : FeedEntry) :
    keyRow (mkRow env keywords cities e) = keyOf e := rfl

theorem mem_processEntries {env : Env} {kws cs : List String} :
    ∀ {entries : List FeedEntry} {seen : List String} {r : Row},
      r ∈ processEntries env kws cs entries seen →
      ∃ e, e ∈ entries ∧ regionOk env e = true ∧ r = mkRow env kws cs e := by
  intro entries
  induction entries with
  | nil => intro seen r h; simp [processEntries] at h
  | cons e es ih =>
    intro seen r h
    rw [processEntries] at h
    by_cases hk : keyOf e ∈ seen
    · rw [if_pos hk] at h
      obtain ⟨e', he', hreg, heq⟩ := ih h
      exact ⟨e', List.mem_cons_of_mem _ he', hreg, heq⟩
    · rw [if_neg hk] at h
      by_cases hreg : regionOk env e = true
      · rw [if_pos hreg] at h
        cases List.mem_cons.mp h with
        | inl heq => exact ⟨e, List.mem_cons_self .., hreg, heq⟩
        | inr hmem =>
          obtain ⟨e', he', hreg', heq⟩ := ih hmem
          exact ⟨e', List.mem_cons_of_mem _ he', hreg', heq⟩
      · rw [if_neg hreg] at h
        obtain ⟨e', he', hreg', heq⟩ := ih h
        exact ⟨e', List.mem_cons_of_mem _ he', hreg', heq⟩

theorem processEntries_keys {env : Env} {kws cs : List String} :
    ∀ {entries : List FeedEntry} {seen : List String},
      ((processEntries env kws cs entries seen).map keyRow).Nodup ∧
      ∀ k ∈ (processEntries env kws cs entries seen).map keyRow, k ∉ seen := by
  intro entries
  induction entries with
  | nil => intro seen; simp [processEntries]
  | cons e es ih =>
    intro seen
    rw [processEntries]
    by_cases hk : keyOf e ∈ seen
    · rw [if_pos hk]; exact ih
    · rw [if_neg hk]
      by_cases hreg : regionOk env e = true
      · rw [if_pos hreg]
        obtain ⟨ihnd, ihns⟩ := @ih (keyOf e :: seen)
        rw [List.map_cons, keyRow_mkRow]
        constructor
        · refine List.nodup_cons.mpr ⟨?_, ihnd⟩
          intro hmem
          exact ihns _ hmem (List.mem_cons_self ..)
        · intro k hkmem
          cases List.mem_cons.mp hkmem with
          | inl heq => rw [heq]; exact hk
          | inr hmem =>
            intro hks
            exact ihns _ hmem (List.mem_cons_of_mem _ hks)
      · rw [if_neg hreg]; exact ih

/-- C1 counterexample: `entryA` and `entryB` share the identity key but point
at different links; `entryA` comes first and is rejected by the region
filter, so its key is never recorded, and the later `entryB` with the same
key is fetched, enriched and kept — it is not "skipped before any fetching
or enrichment", and the first entry bearing the key is not the one kept. -/
theorem dedup_first_rejected_reprocessed :
    keyOf entryA = keyOf entryB
    ∧ (entryA.link == entryB.link) = false
    ∧ (runMain envDup [] [] [] [entryA, entryB]).final.map Row.link = ["L2"] := by decide

/-- C1 (amended): whenever the previously persisted rows carry pairwise
distinct identity keys (`title` and `published` joined by an underscore),
the store after a run still carries pairwise distinct identity keys — so for
any two feed entries with identical (title, published) at most one record
ever appears across runs.  Within a run the first accepted entry with a key
wins and later same-key entries are skipped before fetching, but an entry
whose earlier same-key occurrences were all rejected by the region filter is
processed in full. -/
theorem dedup_store_keys_nodup (env : Env) (keywords cities : List String)
    (existing : List Row) (entries : List FeedEntry)
    (h : (existing.map keyRow).Nodup) :
    ((runMain env keywords cities existing entries).final.map keyRow).Nodup := by
  unfold runMain
  by_cases hex : existing.isEmpty
  · simp only [if_pos hex]
    exact processEntries_keys.1
  · simp only [if_neg hex]
    rw [List.map_append, List.nodup_append]
    refine ⟨h, processEntries_keys.1, ?_⟩
    intro k hke hkp
    exact processEntries_keys.2 k hkp hke

theorem dedup_store_keys_nodup_witness :
    (([rowStored].map keyRow).Nodup)
    ∧ ((runMain envDup ["crime"] [] [rowStored] [entryB]).final.map keyRow).Nodup :=
  ⟨by decide, dedup_store_keys_nodup envDup ["crime"] [] [rowStored] [entryB] (by decide)⟩

/-- C2: every row the entry loop produces comes from an entry of the run
that passed the Paraíba filter: the lowered concatenation of its title and
its resolved article text (fetched text, or the feed summary when the fetch
yields the empty string) contains "paraíba" or "paraiba". -/
theorem region_filter_rows_sound (env : Env) (keywords cities : List String)
    (entries : List FeedEntry) (seen : List String) :
    (processEntries env keywords cities entries seen).all
      (fun r => entries.any
        (fun e => regionOk env e && decide (r = mkRow env keywords cities e))) = true := by
  rw [List.all_eq_true]
  intro r hr
  obtain ⟨e, he, hreg, heq⟩ := mem_processEntries hr
  rw [List.any_eq_true]
  refine ⟨e, he, ?_⟩
  rw [hreg, heq]
  simp

theorem splitWsAux_all_good :
    ∀ (l cur : List Char), cur.all (fun c => !pyIsSpace c) = true →
      (splitWsAux l cur).all (fun t => !t.isEmpty && t.all (fun c => !pyIsSpace c)) = true := by
  intro l
  induction l with
  | nil =>
    intro cur hcur
    rw [splitWsAux]
    by_cases hc : cur.isEmpty = true
    · rw [if_pos hc]; rfl
    · rw [if_neg hc]
      simp [List.isEmpty_iff, hcur]
      simp [List.isEmpty_iff] at hc
      exact hc
  | cons c cs ih =>
    intro cur hcur
    rw [splitWsAux]
    by_cases hsp : pyIsSpace c = true
    · rw [if_pos hsp]
      by_cases hc : cur.isEmpty = true
      · rw [if_pos hc]; exact ih [] rfl
      · rw [if_neg hc]
        rw [List.all_cons, Bool.and_eq_true]
        refine ⟨?_, ih [] rfl⟩
        simp [List.isEmpty_iff, hcur]
        simp [List.isEmpty_iff] at hc
        exact hc
    · rw [if_neg hsp]
      apply ih
      rw [List.all_cons, Bool.and_eq_true]
      exact ⟨by simp [hsp], hcur⟩

theorem pySplitWs_good (s : String) : (pySplitWs s).all goodTok = true := by
  rw [List.all_eq_true]
  intro t ht
  rw [pySplitWs] at ht
  obtain ⟨l, hl, rfl⟩ := List.mem_map.mp ht
  exact List.all_eq_true.mp (splitWsAux_all_good s.data [] rfl) l hl

theorem splitWsAux_append_nospace :
    ∀ (t : List Char), t.all (fun c => !pyIsSpace c) = true →
      ∀ (rest cur : List Char), splitWsAux (t ++ rest) cur = splitWsAux rest (t.reverse ++ cur) := by
  intro t
  induction t with
  | nil => intro _ rest cur; simp
  | cons c cs ih =>
    intro h rest cur
    rw [List.all_cons, Bool.and_eq_true] at h
    obtain ⟨hc, hcs⟩ := h
    rw [List.cons_append, splitWsAux, if_neg (by simp at hc; simp [hc])]
    rw [ih hcs rest (c :: cur)]
    simp

theorem splitWsAux_join :
    ∀ ts : List (List Char), (∀ t ∈ ts, t ≠ [] ∧ t.all (fun c => !pyIsSpace c) = true) →
      ts ≠ [] → splitWsAux (joinSpaceL ts) [] = ts := by
  intro ts
  induction ts with
  | nil => intro _ h; exact absurd rfl h
  | cons t ts ih =>
    intro hgood _
    obtain ⟨ht, htns⟩ := hgood t (List.mem_cons_self ..)
    cases ts with
    | nil =>
      rw [show joinSpaceL [t] = t from rfl]
      rw [show (t : List Char) = t ++ [] from (List.append_nil t).symm, splitWsAux_append_nospace t htns]
      rw [splitWsAux, if_neg (by simp [List.isEmpty_iff, ht])]
      simp
    | cons t2 ts2 =>
      rw [show joinSpaceL (t :: t2 :: ts2) = t ++ ' ' :: joinSpaceL (t2 :: ts2) from rfl]
      rw [splitWsAux_append_nospace t htns]
      rw [splitWsAux, if_pos (by decide)]
      rw [if_neg (by simp [List.isEmpty_iff, ht])]
      rw [ih (fun u hu => hgood u (List.mem_cons_of_mem _ hu)) (by simp)]
      simp

theorem pySplitWs_joinSpace :
    ∀ ts : List String, ts ≠ [] → (∀ t ∈ ts, goodTok t = true) →
      pySplitWs (joinSpace ts) = ts := by
  intro ts hne hgood
  rw [pySplitWs, joinSpace]
  rw [splitWsAux_join (ts.map String.data) ?_ (by simp [hne])]
  · rw [List.map_map]
    exact List.map_id ts
  · intro t ht
    obtain ⟨t', ht', rfl⟩ := List.mem_map.mp ht
    have hg := hgood t' ht'
    rw [goodTok, Bool.and_eq_true] at hg
    refine ⟨?_, hg.2⟩
    have := hg.1
    simp [List.isEmpty_iff] at this
    exact this

theorem namesLoopF_shape :
    ∀ (fuel : Nat) (ws : List String), ws.all goodTok = true →
      (namesLoopF fuel ws).all nameShape = true := by
  intro fuel
  induction fuel with
  | zero => intro ws _; rfl
  | succ fuel ih =>
    intro ws hall
    cases ws with
    | nil => rfl
    | cons w ws =>
      rw [List.all_cons, Bool.and_eq_true] at hall
      obtain ⟨hw, hws⟩ := hall
      simp only [namesLoopF]
      by_cases hc1 : (pyIstitle w && decide (2 < w.length)) = true
      · rw [if_pos hc1]
        by_cases hc2 : (decide (2 ≤ (w :: ws.takeWhile (fun x => pyIstitle x)).length)) = true
        · rw [if_pos hc2]
          rw [List.all_cons, Bool.and_eq_true]
          constructor
          · have hextgood : ∀ t ∈ ws.takeWhile (fun x => pyIstitle x), goodTok t = true := by
              intro t htm
              exact List.all_eq_true.mp hws t ((List.takeWhile_sublist _).subset htm)
            have hsplit : pySplitWs (joinSpace (w :: ws.takeWhile (fun x => pyIstitle x)))
                = w :: ws.takeWhile (fun x => pyIstitle x) := by
              apply pySplitWs_joinSpace
              · simp
              · intro t htm
                cases List.mem_cons.mp htm with
                | inl h => rw [h]; exact hw
                | inr h => exact hextgood t h
            rw [decide_eq_true_eq] at hc2
            cases hext2 : ws.takeWhile (fun x => pyIstitle x) with
            | nil => rw [hext2] at hc2; simp at hc2
            | cons x rest =>
              rw [hext2] at hsplit
              rw [nameShape, hsplit]
              rw [Bool.and_eq_true] at hc1
              rw [Bool.and_eq_true, Bool.and_eq_true]
              refine ⟨⟨hc1.1, hc1.2⟩, ?_⟩
              rw [List.all_eq_true]
              intro t htm
              rw [← hext2] at htm
              exact List.mem_takeWhile_imp htm
          · apply ih
            rw [List.all_eq_true]
            intro t htm
            exact List.all_eq_true.mp hws t ((List.drop_sublist _ _).subset htm)
        · rw [if_neg hc2]; exact ih ws hws
      · rw [if_neg hc1]; exact ih ws hws

/-- C9 counterexample: the text "Maria Da" makes the extractor emit the name
"Maria Da", whose second token "Da" has length 2 — the claim that every
token of an emitted name is longer than 2 characters fails (only the first
token of a run must be longer than 2; the extension loop checks
`istitle` alone). -/
theorem extract_names_short_second_token :
    extract_names_heuristic "Maria Da" = ["Maria Da"]
    ∧ pySplitWs "Maria Da" = ["Maria", "Da"]
    ∧ "Da".length = 2 := by decide

/-- C9 (amended): every candidate name emitted by the extractor consists of
at least two whitespace tokens — single capitalized words are never emitted;
its first token is title-cased and longer than 2 characters, and every
following token is title-cased (with no requirement on its length). -/
theorem extract_names_token_shape (text : String) :
    (extract_names_heuristic text).all nameShape = true := by
  rw [List.all_eq_true]
  intro nm hnm
  have hnm' : nm ∈ dedupFirstAux [] (namesLoopF (pySplitWs text).length (pySplitWs text)) := hnm
  have h1 := (mem_dedupFirstAux.mp hnm').1
  exact List.all_eq_true.mp (namesLoopF_shape _ _ (pySplitWs_good text)) nm h1
